import Mathlib

/-!
Verification of `barcode_generator.py` (class `BarcodeGenerator`).

Shallow embedding conventions:
* `datetime.now()` is modelled by a `DateTime` record supplied through the
  environment; `strftime("%Y%m%d%H%M%S")` is modelled by `strftime_YmdHMS`.
* The external rendering collaborator (`barcode.get('code128', data,
  writer=ImageWriter(format='JPEG'))` followed by `.save(filename)`) is
  modelled by a function `save : RenderCall → Except ε String` carried in the
  environment: it receives the symbology, the text payload, the writer image
  format and the filename stem, and either returns the final path or fails.
* `random.choices(string.digits, k=length)` is modelled by an oracle stream
  `g : Nat → Fin 10` of indices into the population string `string.digits`;
  draw `i` picks the character of `"0123456789"` at index `g i`.
* Python `str` is `String`, Python `int` is `Int` (rendered by `toString`,
  which matches Python's decimal rendering of integers).
* The `print` call inside `generate_barcode` writes to stdout only and has no
  effect on any value; it is not modelled.
-/

/-- A calendar time, standing for the value of `datetime.now()`. -/
structure DateTime where
  year : Nat
  month : Nat
  day : Nat
  hour : Nat
  minute : Nat
  second : Nat
deriving DecidableEq

/-- Left-pad a string with `'0'` up to width `w`, as C `strftime` does for its
numeric fields. -/
def zeroPad (w : Nat) (s : String) : String :=
  String.mk (List.replicate (w - s.length) '0') ++ s

/-- Model of `datetime.strftime("%Y%m%d%H%M%S")`: the six numeric fields,
zero-padded to widths 4, 2, 2, 2, 2, 2. -/
def strftime_YmdHMS (t : DateTime) : String :=
  zeroPad 4 (Nat.repr t.year) ++ zeroPad 2 (Nat.repr t.month) ++
  zeroPad 2 (Nat.repr t.day) ++ zeroPad 2 (Nat.repr t.hour) ++
  zeroPad 2 (Nat.repr t.minute) ++ zeroPad 2 (Nat.repr t.second)

/-- One invocation of the rendering collaborator: symbology identifier, text
payload, writer image format, and the filename stem passed to `save`. -/
structure RenderCall where
  symbology : String
  payload : String
  writerFormat : String
  filename : String
deriving DecidableEq

/-- The ambient effects used by `generate_barcode`: the configured output
directory (`self.output_dir`), the current time, and the rendering
collaborator. `ε` is the type of errors the collaborator may raise. -/
structure Env (ε : Type) where
  output_dir : String
  now : DateTime
  save : RenderCall → Except ε String

/-- The filesystem operations used by `BarcodeGenerator.__init__`:
`os.path.exists` and `os.makedirs`. -/
structure FileSys (ε : Type) where
  path_exists : String → Bool
  makedirs : String → Except ε Unit

/-- `BarcodeGenerator.__init__(output_dir)`: create the output directory if it
does not exist; the established generator state is the stored directory. -/
def barcodeGenerator_init (ε : Type) (fs : FileSys ε) (output_dir : String) :
    Except ε String :=
  if fs.path_exists output_dir then Except.ok output_dir
  else (fs.makedirs output_dir).map (fun _ => output_dir)

/-- The character class of `re.sub(r'[\\/*?:"<>|]', '_', filename)`. -/
def invalid_filename_chars : List Char :=
  ['\\', '/', '*', '?', ':', '\"', '<', '>', '|']

/-- `BarcodeGenerator._sanitize_filename`: replace every character of the
regex class `[\\/*?:"<>|]` by `'_'`. -/
def _sanitize_filename (filename : String) : String :=
  String.mk (filename.data.map (fun c =>
    if c ∈ invalid_filename_chars then '_' else c))

/-- The population string `string.digits`. -/
def string_digits : String := "0123456789"

/-- The character of `string.digits` at index `d`. -/
def digitAt (d : Fin 10) : Char :=
  string_digits.data.get ⟨d.val, by
    have h : string_digits.data.length = 10 := rfl
    rw [h]; exact d.isLt⟩

/-- `BarcodeGenerator.generate_random_serial(prefix, length)` where the oracle
`g` supplies the outcomes of `random.choices(string.digits, k=length)`:
the prefix followed by the `length` drawn digit characters. -/
def generate_random_serial (g : Nat → Fin 10) (pfx : String) (length : Nat) :
    String :=
  let digits : String := String.mk ((List.range length).map (fun i => digitAt (g i)))
  pfx ++ digits

/-- `BarcodeGenerator.generate_barcode(serial_number, service_cycles,
part_number)`: build the payload, build the filename from the sanitized serial
and the current timestamp, and hand both to the rendering collaborator,
returning whatever its save step returns. -/
def generate_barcode (ε : Type) (env : Env ε) (serial_number : String)
    (service_cycles : Int) (part_number : String) : Except ε String :=
  let barcode_data : String :=
    "SN:" ++ serial_number ++ "|SC:" ++ toString service_cycles ++ "|PN:" ++ part_number
  let timestamp : String := strftime_YmdHMS env.now
  let safe_serial : String := _sanitize_filename serial_number
  let filename : String := env.output_dir ++ "/barcode_" ++ safe_serial ++ "_" ++ timestamp
  env.save ⟨"code128", barcode_data, "JPEG", filename⟩

/-- `BarcodeGenerator.generate_barcode_with_default_cycles`. -/
def generate_barcode_with_default_cycles (ε : Type) (env : Env ε)
    (serial_number : String) (part_number : String) (default_cycles : Int) :
    Except ε String :=
  generate_barcode ε env serial_number default_cycles part_number

/-- `BarcodeGenerator.generate_barcode_with_random_serial`. -/
def generate_barcode_with_random_serial (ε : Type) (env : Env ε)
    (g : Nat → Fin 10) (part_number : String) (service_cycles : Int)
    (pfx : String) (length : Nat) : Except ε (String × String) :=
  let serial_number : String := generate_random_serial g pfx length
  (generate_barcode ε env serial_number service_cycles part_number).map
    (fun barcode_path => (barcode_path, serial_number))

/-- The constant digit stream, used to instantiate theorems. -/
def g0 : Nat → Fin 10 := fun _ => 0

/-- A fixed environment used to instantiate theorems: directory `barcodes`,
clock at 2025-04-01 12:30:45, a collaborator that reports the requested
filename stem as the saved path. -/
def env0 : Env Unit :=
  ⟨"barcodes", ⟨2025, 4, 1, 12, 30, 45⟩, fun call => Except.ok call.filename⟩

/-- A filesystem on which the output directory is absent and `makedirs`
fails. -/
def fs_fail : FileSys Unit := ⟨fun _ => false, fun _ => Except.error ()⟩

/-- Modelled from the spec: the repository contains no payload parser; the
spec asserts the payload is "lossless, reconstructible by splitting on `|`
then `:`".  This splits a character list at every occurrence of the
separator, accumulating the current piece. -/
def spec_splitOnCharAux (sep : Char) : List Char → List Char → List (List Char)
  | [], acc => [acc.reverse]
  | x :: xs, acc =>
    if x = sep then acc.reverse :: spec_splitOnCharAux sep xs []
    else spec_splitOnCharAux sep xs (x :: acc)

/-- Modelled from the spec: split a character list on a separator. -/
def spec_splitOnChar (sep : Char) (l : List Char) : List (List Char) :=
  spec_splitOnCharAux sep l []

/-- Modelled from the spec: rejoin the pieces produced by splitting on `:`,
so that a field containing `:` is recovered intact. -/
def spec_joinWithChar (sep : Char) : List (List Char) → List Char
  | [] => []
  | [l] => l
  | l :: ls => l ++ sep :: spec_joinWithChar sep ls

/-- Modelled from the spec: interpret the pieces of one `tag:value`
component, the first `:`-piece being the tag. -/
def spec_fieldOfParts (tag : List Char) : List (List Char) → Option (List Char)
  | [] => none
  | t :: rest =>
    if t = tag then
      (if rest.isEmpty then none else some (spec_joinWithChar ':' rest))
    else none

/-- Modelled from the spec: recover one field from a `tag:value` component by
splitting on `:`. -/
def spec_decodeField (tag : List Char) (piece : List Char) : Option (List Char) :=
  spec_fieldOfParts tag (spec_splitOnChar ':' piece)

/-- Modelled from the spec: interpret the `|`-pieces of a payload; exactly
three components tagged `SN`, `SC`, `PN` are required. -/
def spec_partsOfPayload : List (List Char) → Option (String × String × String)
  | [p1, p2, p3] =>
    match spec_decodeField ['S', 'N'] p1, spec_decodeField ['S', 'C'] p2,
        spec_decodeField ['P', 'N'] p3 with
    | some a, some b, some c => some (String.mk a, String.mk b, String.mk c)
    | _, _, _ => none
  | _ => none

/-- Modelled from the spec: reconstruct `(serialNumber, serviceCycles,
partNumber)` from a payload string by splitting on `|` then on `:`. -/
def spec_decodePayload (payload : String) : Option (String × String × String) :=
  spec_partsOfPayload (spec_splitOnChar '|' payload.data)

/-- The serial drawn at loop iteration `i` of `generate_batch_serials`: the
oracle positions `i*len, …, i*len + len - 1` feed that call of
`generate_random_serial`. -/
def serialAt (g : Nat → Fin 10) (pfx : String) (len i : Nat) : String :=
  generate_random_serial (fun n => g (i * len + n)) pfx len

/-- `BarcodeGenerator.generate_batch_serials(count, prefix, length)`:
`serials = set(); while len(serials) < count: serials.add(...)`.  The
accumulator is a `Finset` (Python set semantics; the final `list(serials)`
order is unspecified).  `fuel` bounds the number of loop iterations: `none`
means the loop has not finished within `fuel` iterations. -/
def generate_batch_serials (g : Nat → Fin 10) (count : Nat) (pfx : String)
    (len : Nat) : Nat → Nat → Finset String → Option (Finset String)
  | 0, _, serials => if serials.card < count then none else some serials
  | fuel + 1, i, serials =>
    if serials.card < count then
      generate_batch_serials g count pfx len fuel (i + 1)
        (insert (serialAt g pfx len i) serials)
    else some serials

/-- A string of the shape produced by `generate_random_serial`: the prefix
followed by `len` drawn digit characters. -/
def SerialShape (pfx : String) (len : Nat) (x : String) : Prop :=
  ∃ ds : List (Fin 10), ds.length = len ∧ x = pfx ++ String.mk (ds.map digitAt)

/-- The value of a fixed-width digit list, most significant digit first. -/
def valNat : List Nat → Nat
  | [] => 0
  | a :: l => a * 10 ^ l.length + valNat l

/-- The `len` base-10 digits of `k`, most significant first. -/
def digitsOfN : Nat → Nat → List Nat
  | 0, _ => []
  | len + 1, k => (k / 10 ^ len) % 10 :: digitsOfN len (k % 10 ^ len)

/-- The numeric value of the digit block of a serial string. -/
def serialVal (pfx : String) (x : String) : Nat :=
  valNat ((x.data.drop pfx.length).map (fun ch => ch.toNat - 48))

/-- A digit stream that makes iteration `k` of the batch loop draw the
base-10 digits of `k`: draws for distinct iterations below `10 ^ len` give
distinct serials. -/
def gStar (len : Nat) : Nat → Fin 10 :=
  fun n => ⟨(digitsOfN len (n / len)).getD (n % len) 0 % 10, Nat.mod_lt _ (by decide)⟩

/-- The identity-modulo-10 digit stream, used to instantiate theorems. -/
def gId : Nat → Fin 10 := fun n => ⟨n % 10, Nat.mod_lt _ (by decide)⟩

/-- Unfolding lemma for `String.mk`. -/
theorem data_mk (l : List Char) : (String.mk l).data = l := rfl

lemma digitChar_isDigit (m : Nat) (hm : m < 10) : (Nat.digitChar m).isDigit = true := by
  interval_cases m <;> decide

lemma toDigitsCore_isDigit :
    ∀ (f n : Nat) (acc : List Char), (∀ ch ∈ acc, ch.isDigit = true) →
      ∀ ch ∈ Nat.toDigitsCore 10 f n acc, ch.isDigit = true := by
  intro f
  induction f with
  | zero => intro n acc hacc ch hch; exact hacc ch hch
  | succ f ih =>
    intro n acc hacc ch hch
    simp only [Nat.toDigitsCore] at hch
    by_cases h : n / 10 = 0
    · rw [if_pos h] at hch
      rcases List.mem_cons.mp hch with rfl | h2
      · exact digitChar_isDigit _ (Nat.mod_lt _ (by decide))
      · exact hacc ch h2
    · rw [if_neg h] at hch
      refine ih (n / 10) _ ?_ ch hch
      intro ch' hch'
      rcases List.mem_cons.mp hch' with rfl | h2
      · exact digitChar_isDigit _ (Nat.mod_lt _ (by decide))
      · exact hacc ch' h2

/-- Every character of the decimal rendering of a natural number is a digit. -/
lemma nat_repr_isDigit (n : Nat) : ∀ ch ∈ (Nat.repr n).data, ch.isDigit = true := by
  intro ch hch
  exact toDigitsCore_isDigit (n + 1) n [] (by simp) ch hch

lemma zeroPad_length (w : Nat) (s : String) (h : s.length ≤ w) :
    (zeroPad w s).length = w := by
  simp only [zeroPad, String.length_append]
  show (List.replicate (w - s.length) '0').length + s.length = w
  simp only [List.length_replicate]
  omega

lemma zeroPad_isDigit (w : Nat) (s : String)
    (hs : ∀ ch ∈ s.data, ch.isDigit = true) :
    ∀ ch ∈ (zeroPad w s).data, ch.isDigit = true := by
  intro ch hch
  rw [zeroPad, String.data_append, data_mk] at hch
  rcases List.mem_append.mp hch with h1 | h2
  · rw [List.eq_of_mem_replicate h1]; decide
  · exact hs ch h2

/-- Under the field bounds guaranteed by `datetime`, the timestamp is a
14-character all-digit string of shape `YYYYMMDDHHMMSS`. -/
lemma strftime_format (t : DateTime) (h1 : t.year ≤ 9999) (h2 : t.month ≤ 99)
    (h3 : t.day ≤ 99) (h4 : t.hour ≤ 99) (h5 : t.minute ≤ 99)
    (h6 : t.second ≤ 99) :
    (strftime_YmdHMS t).length = 14 ∧
      ∀ ch ∈ (strftime_YmdHMS t).data, ch.isDigit = true := by
  have p4 : (10 : Nat) ^ 4 = 10000 := by norm_num
  have p2 : (10 : Nat) ^ 2 = 100 := by norm_num
  have ry : (Nat.repr t.year).length ≤ 4 :=
    Nat.repr_length _ 4 (by decide) (by omega)
  have rm : (Nat.repr t.month).length ≤ 2 :=
    Nat.repr_length _ 2 (by decide) (by omega)
  have rd : (Nat.repr t.day).length ≤ 2 :=
    Nat.repr_length _ 2 (by decide) (by omega)
  have rh : (Nat.repr t.hour).length ≤ 2 :=
    Nat.repr_length _ 2 (by decide) (by omega)
  have rmi : (Nat.repr t.minute).length ≤ 2 :=
    Nat.repr_length _ 2 (by decide) (by omega)
  have rs : (Nat.repr t.second).length ≤ 2 :=
    Nat.repr_length _ 2 (by decide) (by omega)
  constructor
  · simp only [strftime_YmdHMS, String.length_append,
      zeroPad_length _ _ ry, zeroPad_length _ _ rm, zeroPad_length _ _ rd,
      zeroPad_length _ _ rh, zeroPad_length _ _ rmi, zeroPad_length _ _ rs]
  · intro ch hch
    simp only [strftime_YmdHMS, String.data_append, List.mem_append] at hch
    rcases hch with ((((hc | hc) | hc) | hc) | hc) | hc <;>
      exact zeroPad_isDigit _ _ (nat_repr_isDigit _) ch hc

/-- Sanitization acts characterwise. -/
theorem sanitize_data (s : String) :
    (_sanitize_filename s).data =
      s.data.map (fun c => if c ∈ invalid_filename_chars then '_' else c) := rfl

/-- C2: `_sanitize_filename` maps each of the nine characters
`\ / * ? : " < > |` to `'_'`, leaves every other character unchanged at its
position, preserves the length, and is a pure function of its argument. -/
theorem C2_sanitize_pointwise (s : String) (i : Nat)
    (hi : i < s.data.length) (hi' : i < (_sanitize_filename s).data.length) :
    (_sanitize_filename s).data.get ⟨i, hi'⟩ =
      (if s.data.get ⟨i, hi⟩ ∈ invalid_filename_chars then '_'
       else s.data.get ⟨i, hi⟩) ∧
    (_sanitize_filename s).length = s.length := by
  constructor
  · simp only [sanitize_data, List.get_eq_getElem, List.getElem_map]
  · simp only [String.length, sanitize_data, List.length_map]

/-- Witness for C2 at the concrete input `"a:b"`, position 1. -/
theorem C2_sanitize_pointwise_witness :
    (_sanitize_filename "a:b").data.get ⟨1, by decide⟩ =
      (if ("a:b".data.get ⟨1, by decide⟩) ∈ invalid_filename_chars then '_'
       else "a:b".data.get ⟨1, by decide⟩) ∧
    (_sanitize_filename "a:b").length = ("a:b" : String).length :=
  C2_sanitize_pointwise "a:b" 1 (by decide) (by decide)

/-- C10: `_sanitize_filename` is idempotent and length-preserving. -/
theorem C10_sanitize_idempotent_length (s : String) :
    _sanitize_filename (_sanitize_filename s) = _sanitize_filename s ∧
    (_sanitize_filename s).length = s.length := by
  constructor
  · apply String.ext
    simp only [sanitize_data, List.map_map]
    apply List.map_congr_left
    intro c _
    simp only [Function.comp_apply]
    by_cases h : c ∈ invalid_filename_chars
    · rw [if_pos h, if_neg (by decide : ('_' : Char) ∉ invalid_filename_chars)]
    · rw [if_neg h, if_neg h]
  · simp only [String.length, sanitize_data, List.length_map]

/-- Every character of `string.digits` lies between `'0'` and `'9'`. -/
lemma digitAt_bounds : ∀ d : Fin 10, '0' ≤ digitAt d ∧ digitAt d ≤ '9' := by decide

/-- C1: `generate_barcode` invokes the rendering step with symbology
`code128` and with payload exactly
`SN:<serial_number>|SC:<service_cycles>|PN:<part_number>`. -/
theorem C1_generate_barcode_invokes_code128 (ε : Type) (env : Env ε)
    (serial_number : String) (service_cycles : Int) (part_number : String) :
    ∃ call : RenderCall,
      generate_barcode ε env serial_number service_cycles part_number = env.save call ∧
      call.symbology = "code128" ∧
      call.payload =
        "SN:" ++ serial_number ++ "|SC:" ++ toString service_cycles ++ "|PN:" ++ part_number :=
  ⟨_, rfl, rfl, rfl⟩

/-- C3: `generate_random_serial` returns the prefix followed by exactly
`length` characters, each an ASCII decimal digit; with `length = 0` it
returns the bare prefix, and it is total (no error conditions). -/
theorem C3_generate_random_serial_shape (g : Nat → Fin 10) (pfx : String)
    (length : Nat) :
    (∃ t : String,
        generate_random_serial g pfx length = pfx ++ t ∧ t.length = length ∧
        ∀ c ∈ t.data, '0' ≤ c ∧ c ≤ '9') ∧
    (length = 0 → generate_random_serial g pfx length = pfx) := by
  constructor
  · refine ⟨String.mk ((List.range length).map (fun i => digitAt (g i))), rfl, ?_, ?_⟩
    · show ((List.range length).map (fun i => digitAt (g i))).length = length
      simp
    · intro c hc
      rw [data_mk] at hc
      obtain ⟨i, _, rfl⟩ := List.mem_map.mp hc
      exact digitAt_bounds (g i)
  · intro h
    subst h
    apply String.ext
    simp [generate_random_serial, String.data_append, data_mk]

/-- Witness for C3 at the constant stream, `pfx = "SN"`, lengths 8 and 0. -/
theorem C3_generate_random_serial_shape_witness :
    ((∃ t : String,
        generate_random_serial g0 "SN" 8 = "SN" ++ t ∧ t.length = 8 ∧
        ∀ c ∈ t.data, '0' ≤ c ∧ c ≤ '9') ∧
      (8 = 0 → generate_random_serial g0 "SN" 8 = "SN")) ∧
    generate_random_serial g0 "SN" 0 = "SN" :=
  ⟨C3_generate_random_serial_shape g0 "SN" 8,
   (C3_generate_random_serial_shape g0 "SN" 0).2 rfl⟩

/-- C6: the filename stem passed to the save step is exactly
`<output_dir>/barcode_<sanitized serial>_<timestamp>`, with the timestamp the
current time rendered as `YYYYMMDDHHMMSS` (14 digit characters, under the
field bounds `datetime` guarantees). -/
theorem C6_generate_barcode_filename (ε : Type) (env : Env ε) (s : String)
    (c : Int) (p : String) (hy : env.now.year ≤ 9999) (hmo : env.now.month ≤ 99)
    (hd : env.now.day ≤ 99) (hh : env.now.hour ≤ 99) (hmi : env.now.minute ≤ 99)
    (hs : env.now.second ≤ 99) :
    ∃ call : RenderCall,
      generate_barcode ε env s c p = env.save call ∧
      call.filename =
        env.output_dir ++ "/barcode_" ++ _sanitize_filename s ++ "_" ++
          strftime_YmdHMS env.now ∧
      (strftime_YmdHMS env.now).length = 14 ∧
      ∀ ch ∈ (strftime_YmdHMS env.now).data, ch.isDigit = true := by
  obtain ⟨hl, hdig⟩ := strftime_format env.now hy hmo hd hh hmi hs
  exact ⟨_, rfl, rfl, hl, hdig⟩

/-- Witness for C6 at the fixed environment `env0`. -/
theorem C6_generate_barcode_filename_witness :
    ∃ call : RenderCall,
      generate_barcode Unit env0 "SN1" 5 "PN" = env0.save call ∧
      call.filename =
        env0.output_dir ++ "/barcode_" ++ _sanitize_filename "SN1" ++ "_" ++
          strftime_YmdHMS env0.now ∧
      (strftime_YmdHMS env0.now).length = 14 ∧
      ∀ ch ∈ (strftime_YmdHMS env0.now).data, ch.isDigit = true :=
  C6_generate_barcode_filename Unit env0 "SN1" 5 "PN" (by decide) (by decide)
    (by decide) (by decide) (by decide) (by decide)

/-- C7: `generate_barcode_with_default_cycles` forwards to `generate_barcode`
with the supplied cycle count in the middle position; with the default 1000
the encoded payload is `SN:<serial>|SC:1000|PN:<part>`. -/
theorem C7_default_cycles_forwards (ε : Type) (env : Env ε) (s p : String)
    (d : Int) :
    generate_barcode_with_default_cycles ε env s p d = generate_barcode ε env s d p ∧
    ∃ call : RenderCall,
      generate_barcode_with_default_cycles ε env s p 1000 = env.save call ∧
      call.payload = "SN:" ++ s ++ "|SC:1000|PN:" ++ p := by
  refine ⟨rfl, _, rfl, ?_⟩
  show "SN:" ++ s ++ "|SC:" ++ toString (1000 : Int) ++ "|PN:" ++ p =
    "SN:" ++ s ++ "|SC:1000|PN:" ++ p
  have h2 : "SN:" ++ s ++ "|SC:" ++ toString (1000 : Int) ++ "|PN:" =
      "SN:" ++ s ++ "|SC:1000|PN:" := by
    rw [String.append_assoc ("SN:" ++ s), String.append_assoc ("SN:" ++ s)]
    rfl
  rw [h2]

/-- C8: `generate_barcode_with_random_serial` returns the pair of the
forwarded `generate_barcode` result and the internally generated serial:
an `ok` result pairs exactly those two values, and failures pass through. -/
theorem C8_random_serial_pair (ε : Type) (env : Env ε) (g : Nat → Fin 10)
    (p : String) (c : Int) (pfx : String) (length : Nat) :
    (∀ fp sn, generate_barcode_with_random_serial ε env g p c pfx length =
        Except.ok (fp, sn) →
      sn = generate_random_serial g pfx length ∧
      generate_barcode ε env sn c p = Except.ok fp) ∧
    (∀ fp, generate_barcode ε env (generate_random_serial g pfx length) c p =
        Except.ok fp →
      generate_barcode_with_random_serial ε env g p c pfx length =
        Except.ok (fp, generate_random_serial g pfx length)) ∧
    (∀ e, generate_barcode ε env (generate_random_serial g pfx length) c p =
        Except.error e →
      generate_barcode_with_random_serial ε env g p c pfx length =
        Except.error e) := by
  refine ⟨?_, ?_, ?_⟩
  · intro fp sn heq
    rw [generate_barcode_with_random_serial] at heq
    cases hgb : generate_barcode ε env (generate_random_serial g pfx length) c p with
    | ok a =>
      rw [hgb] at heq
      simp only [Except.map, Except.ok.injEq, Prod.mk.injEq] at heq
      obtain ⟨h1, h2⟩ := heq
      subst h1
      subst h2
      exact ⟨rfl, hgb⟩
    | error e =>
      rw [hgb] at heq
      simp only [Except.map] at heq
      exact absurd heq (by simp)
  · intro fp hgb
    rw [generate_barcode_with_random_serial, hgb]
    rfl
  · intro e hgb
    rw [generate_barcode_with_random_serial, hgb]
    rfl

/-- Witness for C8: a full concrete run through `env0` with the constant
stream returns the reported path paired with the generated serial. -/
theorem C8_random_serial_pair_witness :
    generate_barcode_with_random_serial Unit env0 g0 "PN-TEST" 2000 "SN" 8 =
      Except.ok ("barcodes/barcode_SN00000000_20250401123045", "SN00000000") :=
  (C8_random_serial_pair Unit env0 g0 "PN-TEST" 2000 "SN" 8).2.1
    "barcodes/barcode_SN00000000_20250401123045" (by rfl)

/-- C9: failures propagate unchanged: a `makedirs` failure during
construction is returned as-is, and `generate_barcode` returns exactly
whatever the rendering collaborator's save step returns, with no
translation, wrapping, retry, or partial-failure handling. -/
theorem C9_failures_propagate :
    (∀ (ε : Type) (fs : FileSys ε) (dir : String) (e : ε),
        fs.path_exists dir = false → fs.makedirs dir = Except.error e →
        barcodeGenerator_init ε fs dir = Except.error e) ∧
    (∀ (ε : Type) (env : Env ε) (s : String) (c : Int) (p : String),
        ∃ call : RenderCall, generate_barcode ε env s c p = env.save call) := by
  constructor
  · intro ε fs dir e hex hmk
    rw [barcodeGenerator_init, hex, hmk]
    rfl
  · intro ε env s c p
    exact ⟨_, rfl⟩

/-- Witness for C9: with an absent directory and failing `makedirs`, the
constructor surfaces exactly that error. -/
theorem C9_failures_propagate_witness :
    barcodeGenerator_init Unit fs_fail "barcodes" = Except.error () ∧
    ∃ call : RenderCall, generate_barcode Unit env0 "SN1" 5 "PN" = env0.save call :=
  ⟨C9_failures_propagate.1 Unit fs_fail "barcodes" () rfl rfl,
   C9_failures_propagate.2 Unit env0 "SN1" 5 "PN"⟩

lemma spec_splitOnCharAux_ne_nil (sep : Char) :
    ∀ (l acc : List Char), spec_splitOnCharAux sep l acc ≠ [] := by
  intro l
  induction l with
  | nil => intro acc; simp [spec_splitOnCharAux]
  | cons x xs ih =>
    intro acc
    rw [spec_splitOnCharAux]
    by_cases h : x = sep
    · rw [if_pos h]; simp
    · rw [if_neg h]; exact ih (x :: acc)

lemma spec_splitOnCharAux_no_sep (sep : Char) :
    ∀ (l acc : List Char), sep ∉ l →
      spec_splitOnCharAux sep l acc = [acc.reverse ++ l] := by
  intro l
  induction l with
  | nil => intro acc _; simp [spec_splitOnCharAux]
  | cons x xs ih =>
    intro acc hmem
    have hx : ¬(x = sep) := fun h => hmem (by rw [← h]; exact List.mem_cons_self x xs)
    rw [spec_splitOnCharAux, if_neg hx,
      ih (x :: acc) (fun h => hmem (List.mem_cons_of_mem x h))]
    simp

lemma spec_splitOnCharAux_append (sep : Char) :
    ∀ (l r acc : List Char), sep ∉ l →
      spec_splitOnCharAux sep (l ++ sep :: r) acc =
        (acc.reverse ++ l) :: spec_splitOnChar sep r := by
  intro l
  induction l with
  | nil =>
    intro r acc _
    rw [List.nil_append, spec_splitOnCharAux, if_pos rfl]
    simp [spec_splitOnChar]
  | cons x xs ih =>
    intro r acc hmem
    have hx : ¬(x = sep) := fun h => hmem (by rw [← h]; exact List.mem_cons_self x xs)
    rw [List.cons_append, spec_splitOnCharAux, if_neg hx,
      ih r (x :: acc) (fun h => hmem (List.mem_cons_of_mem x h))]
    simp

lemma spec_split_no_sep (sep : Char) (l : List Char) (h : sep ∉ l) :
    spec_splitOnChar sep l = [l] := by
  rw [spec_splitOnChar, spec_splitOnCharAux_no_sep sep l [] h]
  simp

lemma spec_split_append (sep : Char) (l r : List Char) (h : sep ∉ l) :
    spec_splitOnChar sep (l ++ sep :: r) = l :: spec_splitOnChar sep r := by
  rw [spec_splitOnChar, spec_splitOnCharAux_append sep l r [] h]
  simp

lemma spec_join_splitAux (sep : Char) :
    ∀ (l acc : List Char),
      spec_joinWithChar sep (spec_splitOnCharAux sep l acc) = acc.reverse ++ l := by
  intro l
  induction l with
  | nil => intro acc; simp [spec_splitOnCharAux, spec_joinWithChar]
  | cons x xs ih =>
    intro acc
    rw [spec_splitOnCharAux]
    by_cases h : x = sep
    · rw [if_pos h]
      cases hx : spec_splitOnCharAux sep xs [] with
      | nil => exact absurd hx (spec_splitOnCharAux_ne_nil sep xs [])
      | cons b bs =>
        have hx3 : spec_joinWithChar sep (b :: bs) = xs := by
          have hx2 := ih ([] : List Char)
          rw [hx] at hx2
          simpa using hx2
        simp only [spec_joinWithChar]
        rw [hx3, h]
    · rw [if_neg h, ih (x :: acc)]
      simp

lemma spec_join_split (sep : Char) (l : List Char) :
    spec_joinWithChar sep (spec_splitOnChar sep l) = l := by
  rw [spec_splitOnChar, spec_join_splitAux]
  simp

lemma spec_decodeField_encode (tag body : List Char) (htag : ':' ∉ tag) :
    spec_decodeField tag (tag ++ ':' :: body) = some body := by
  rw [spec_decodeField, spec_split_append ':' tag body htag, spec_fieldOfParts,
    if_pos rfl]
  have hne : spec_splitOnChar ':' body ≠ [] := spec_splitOnCharAux_ne_nil ':' body []
  rw [if_neg (by simpa [List.isEmpty_iff] using hne), spec_join_split]

/-- The decimal rendering of an integer contains no `|` character. -/
lemma int_toString_no_pipe (c : Int) : '|' ∉ (toString c).data := by
  cases c with
  | ofNat n =>
    intro h
    exact absurd (nat_repr_isDigit n '|' h) (by decide)
  | negSucc n =>
    intro h
    have hd : (toString (Int.negSucc n)).data = '-' :: (Nat.repr (n + 1)).data := rfl
    rw [hd] at h
    rcases List.mem_cons.mp h with h1 | h2
    · exact absurd h1 (by decide)
    · exact absurd (nat_repr_isDigit (n + 1) '|' h2) (by decide)

/-- The character data of the payload built by `generate_barcode`, regrouped
around the two `|` separators. -/
lemma payload_data (s p : String) (c : Int) :
    ("SN:" ++ s ++ "|SC:" ++ toString c ++ "|PN:" ++ p).data =
      (['S', 'N'] ++ ':' :: s.data) ++
        '|' :: ((['S', 'C'] ++ ':' :: (toString c).data) ++
          '|' :: (['P', 'N'] ++ ':' :: p.data)) := by
  simp only [String.data_append,
    show ("SN:" : String).data = ['S', 'N', ':'] from rfl,
    show ("|SC:" : String).data = ['|', 'S', 'C', ':'] from rfl,
    show ("|PN:" : String).data = ['|', 'P', 'N', ':'] from rfl,
    List.cons_append, List.nil_append, List.append_assoc]

/-- Splitting the payload on `|` then on `:` recovers the three fields
whenever the serial and part fields contain no `|`. -/
lemma spec_decodePayload_encode (s p : String) (c : Int)
    (hs : '|' ∉ s.data) (hp : '|' ∉ p.data) :
    spec_decodePayload ("SN:" ++ s ++ "|SC:" ++ toString c ++ "|PN:" ++ p) =
      some (s, toString c, p) := by
  have h1 : '|' ∉ ['S', 'N'] ++ ':' :: s.data := by
    intro h
    rcases List.mem_append.mp h with h' | h'
    · exact absurd h' (by decide)
    · rcases List.mem_cons.mp h' with h'' | h''
      · exact absurd h'' (by decide)
      · exact hs h''
  have h2 : '|' ∉ ['S', 'C'] ++ ':' :: (toString c).data := by
    intro h
    rcases List.mem_append.mp h with h' | h'
    · exact absurd h' (by decide)
    · rcases List.mem_cons.mp h' with h'' | h''
      · exact absurd h'' (by decide)
      · exact int_toString_no_pipe c h''
  have h3 : '|' ∉ ['P', 'N'] ++ ':' :: p.data := by
    intro h
    rcases List.mem_append.mp h with h' | h'
    · exact absurd h' (by decide)
    · rcases List.mem_cons.mp h' with h'' | h''
      · exact absurd h'' (by decide)
      · exact hp h''
  rw [spec_decodePayload, payload_data,
    spec_split_append '|' _ _ h1, spec_split_append '|' _ _ h2,
    spec_split_no_sep '|' _ h3, spec_partsOfPayload,
    spec_decodeField_encode ['S', 'N'] s.data (by decide),
    spec_decodeField_encode ['S', 'C'] (toString c).data (by decide),
    spec_decodeField_encode ['P', 'N'] p.data (by decide)]

/-- C5 (amended): for serial and part fields that contain no `|`, the payload
built by `generate_barcode` is lossless: splitting on `|` then on `:` recovers
the serial number, the decimal rendering of the service-cycle count, and the
part number. -/
theorem C5_payload_roundtrip (ε : Type) (env : Env ε) (s : String) (c : Int)
    (p : String) (hs : '|' ∉ s.data) (hp : '|' ∉ p.data) :
    ∃ call : RenderCall,
      generate_barcode ε env s c p = env.save call ∧
      spec_decodePayload call.payload = some (s, toString c, p) :=
  ⟨_, rfl, spec_decodePayload_encode s p c hs hp⟩

/-- Witness for C5 at the spec's own example fields. -/
theorem C5_payload_roundtrip_witness :
    ∃ call : RenderCall,
      generate_barcode Unit env0 "SN12345" 5000 "PN-ABC-789" = env0.save call ∧
      spec_decodePayload call.payload =
        some ("SN12345", toString (5000 : Int), "PN-ABC-789") :=
  C5_payload_roundtrip Unit env0 "SN12345" 5000 "PN-ABC-789" (by decide) (by decide)

/-- C5 counterexample: with the serial number `a|b` (an arbitrary string the
spec explicitly admits), the payload is `SN:a|b|SC:0|PN:`, which splits on `|`
into four pieces; the reconstruction does not return the original fields, so
the round trip is not lossless for every string. -/
theorem C5_payload_roundtrip_counterexample :
    ∃ call : RenderCall,
      generate_barcode Unit env0 "a|b" 0 "" = env0.save call ∧
      call.payload = "SN:a|b|SC:0|PN:" ∧
      spec_decodePayload call.payload = none ∧
      spec_decodePayload call.payload ≠ some ("a|b", toString (0 : Int), "") := by
  refine ⟨_, rfl, by decide, by decide, by decide⟩

lemma serialAt_eq (g : Nat → Fin 10) (pfx : String) (len i : Nat) :
    serialAt g pfx len i =
      pfx ++ String.mk (((List.range len).map (fun n => g (i * len + n))).map digitAt) := by
  rw [serialAt, generate_random_serial, List.map_map]
  rfl

lemma serialAt_shape (g : Nat → Fin 10) (pfx : String) (len i : Nat) :
    SerialShape pfx len (serialAt g pfx len i) :=
  ⟨(List.range len).map (fun n => g (i * len + n)), by simp, serialAt_eq g pfx len i⟩

/-- Whenever the batch loop returns, it returns exactly `count` strings, all
of the serial shape. -/
lemma batch_sound (g : Nat → Fin 10) (pfx : String) (len count : Nat) :
    ∀ (fuel i : Nat) (s r : Finset String), s.card ≤ count →
      (∀ x ∈ s, SerialShape pfx len x) →
      generate_batch_serials g count pfx len fuel i s = some r →
      r.card = count ∧ ∀ x ∈ r, SerialShape pfx len x := by
  intro fuel
  induction fuel with
  | zero =>
    intro i s r hcard hshape hr
    rw [generate_batch_serials] at hr
    by_cases h : s.card < count
    · rw [if_pos h] at hr; exact absurd hr (by simp)
    · rw [if_neg h] at hr
      obtain rfl : s = r := by simpa using hr
      exact ⟨le_antisymm hcard (le_of_not_lt h), hshape⟩
  | succ fuel ih =>
    intro i s r hcard hshape hr
    rw [generate_batch_serials] at hr
    by_cases h : s.card < count
    · rw [if_pos h] at hr
      refine ih (i + 1) _ r ?_ ?_ hr
      · exact le_trans (Finset.card_insert_le _ _) h
      · intro x hx
        rcases Finset.mem_insert.mp hx with rfl | hx'
        · exact serialAt_shape g pfx len i
        · exact hshape x hx'
    · rw [if_neg h] at hr
      obtain rfl : s = r := by simpa using hr
      exact ⟨le_antisymm hcard (le_of_not_lt h), hshape⟩

lemma digitsOfN_length : ∀ (len k : Nat), (digitsOfN len k).length = len := by
  intro len
  induction len with
  | zero => intro k; rfl
  | succ len ih => intro k; rw [digitsOfN, List.length_cons, ih]

lemma digitsOfN_lt (len k : Nat) : ∀ a ∈ digitsOfN len k, a < 10 := by
  induction len generalizing k with
  | zero => intro a ha; exact absurd ha (by simp [digitsOfN])
  | succ len ih =>
    intro a ha
    rw [digitsOfN] at ha
    rcases List.mem_cons.mp ha with rfl | ha'
    · exact Nat.mod_lt _ (by decide)
    · exact ih _ a ha'

lemma valNat_lt (l : List Nat) (h : ∀ a ∈ l, a < 10) :
    valNat l < 10 ^ l.length := by
  induction l with
  | nil => decide
  | cons a l ih =>
    have ha : a < 10 := h a (List.mem_cons_self a l)
    have hv : valNat l < 10 ^ l.length :=
      ih (fun b hb => h b (List.mem_cons_of_mem a hb))
    calc a * 10 ^ l.length + valNat l
        < a * 10 ^ l.length + 10 ^ l.length := by omega
      _ = (a + 1) * 10 ^ l.length := by ring
      _ ≤ 10 * 10 ^ l.length := Nat.mul_le_mul_right _ (by omega)
      _ = 10 ^ (a :: l).length := by rw [List.length_cons]; ring

lemma valNat_digitsOfN : ∀ (len k : Nat), k < 10 ^ len →
    valNat (digitsOfN len k) = k := by
  intro len
  induction len with
  | zero => intro k hk; interval_cases k; rfl
  | succ len ih =>
    intro k hk
    have hK : 0 < 10 ^ len := pow_pos (by norm_num) len
    have h1 : k % 10 ^ len < 10 ^ len := Nat.mod_lt _ hK
    have h2 : k / 10 ^ len < 10 := by
      apply Nat.div_lt_of_lt_mul
      rw [← pow_succ]
      exact hk
    rw [digitsOfN, valNat, digitsOfN_length, ih _ h1, Nat.mod_eq_of_lt h2,
      Nat.mul_comm (k / 10 ^ len) (10 ^ len)]
    exact Nat.div_add_mod k (10 ^ len)

lemma digitsOfN_valNat (l : List Nat) (h : ∀ a ∈ l, a < 10) :
    digitsOfN l.length (valNat l) = l := by
  induction l with
  | nil => rfl
  | cons a l ih =>
    have ha : a < 10 := h a (List.mem_cons_self a l)
    have hv : valNat l < 10 ^ l.length :=
      valNat_lt l (fun b hb => h b (List.mem_cons_of_mem a hb))
    have hK : 0 < 10 ^ l.length := pow_pos (by norm_num) l.length
    have hd : (a * 10 ^ l.length + valNat l) / 10 ^ l.length = a := by
      rw [Nat.mul_comm a, Nat.mul_add_div hK, Nat.div_eq_of_lt hv, Nat.add_zero]
    have hm : (a * 10 ^ l.length + valNat l) % 10 ^ l.length = valNat l := by
      rw [Nat.mul_comm a, Nat.mul_add_mod, Nat.mod_eq_of_lt hv]
    rw [List.length_cons, valNat, digitsOfN, hd, hm, Nat.mod_eq_of_lt ha,
      ih (fun b hb => h b (List.mem_cons_of_mem a hb))]

/-- `digitAt` is injective: the ten characters of `string.digits` are
pairwise distinct. -/
lemma digitAt_injective : Function.Injective digitAt := by
  intro a b
  revert a b
  decide

lemma serialVal_encode (pfx : String) (ds : List (Fin 10)) :
    serialVal pfx (pfx ++ String.mk (ds.map digitAt)) = valNat (ds.map Fin.val) := by
  rw [serialVal, String.data_append, data_mk,
    show pfx.length = pfx.data.length from rfl, List.drop_left, List.map_map]
  have hfun : ((fun ch => ch.toNat - 48) ∘ digitAt) = (Fin.val : Fin 10 → Nat) := by
    funext d
    revert d
    decide
  rw [hfun]

/-- A set of serial-shaped strings has at most `10 ^ len` elements. -/
lemma shape_card_le (pfx : String) (len : Nat) (s : Finset String)
    (hshape : ∀ x ∈ s, SerialShape pfx len x) : s.card ≤ 10 ^ len := by
  refine le_trans (Finset.card_le_card_of_injOn (serialVal pfx) ?_ ?_)
    (le_of_eq (Finset.card_range (10 ^ len)))
  · intro x hx
    obtain ⟨ds, hlen, rfl⟩ := hshape x hx
    rw [Finset.mem_range, serialVal_encode]
    have hl : (ds.map Fin.val).length = len := by simp [hlen]
    calc valNat (ds.map Fin.val) < 10 ^ (ds.map Fin.val).length := by
          apply valNat_lt
          intro a ha
          obtain ⟨d, _, rfl⟩ := List.mem_map.mp ha
          exact d.isLt
      _ = 10 ^ len := by rw [hl]
  · intro x hx y hy hxy
    simp only [Finset.mem_coe] at hx hy
    obtain ⟨ds, hlds, rfl⟩ := hshape x hx
    obtain ⟨es, hles, rfl⟩ := hshape y hy
    rw [serialVal_encode, serialVal_encode] at hxy
    have hbds : ∀ a ∈ ds.map Fin.val, a < 10 := by
      intro a ha
      obtain ⟨d, _, rfl⟩ := List.mem_map.mp ha
      exact d.isLt
    have hbes : ∀ a ∈ es.map Fin.val, a < 10 := by
      intro a ha
      obtain ⟨d, _, rfl⟩ := List.mem_map.mp ha
      exact d.isLt
    have e1 := digitsOfN_valNat (ds.map Fin.val) hbds
    have e2 := digitsOfN_valNat (es.map Fin.val) hbes
    rw [hxy] at e1
    have hlen2 : (ds.map Fin.val).length = (es.map Fin.val).length := by
      simp [hlds, hles]
    rw [hlen2] at e1
    have hmap : ds.map Fin.val = es.map Fin.val := e1.symm.trans e2
    have hde : ds = es := List.map_injective_iff.mpr Fin.val_injective hmap
    rw [hde]

/-- With `count > 10 ^ len` the loop never finishes: the guard can never
become false, for any oracle stream and any iteration bound. -/
lemma batch_none_of_overcount (g : Nat → Fin 10) (pfx : String)
    (len count : Nat) (hcount : 10 ^ len < count) :
    ∀ (fuel i : Nat) (s : Finset String), (∀ x ∈ s, SerialShape pfx len x) →
      generate_batch_serials g count pfx len fuel i s = none := by
  intro fuel
  induction fuel with
  | zero =>
    intro i s hshape
    rw [generate_batch_serials,
      if_pos (lt_of_le_of_lt (shape_card_le pfx len s hshape) hcount)]
  | succ fuel ih =>
    intro i s hshape
    rw [generate_batch_serials,
      if_pos (lt_of_le_of_lt (shape_card_le pfx len s hshape) hcount)]
    refine ih (i + 1) _ ?_
    intro x hx
    rcases Finset.mem_insert.mp hx with rfl | hx'
    · exact serialAt_shape g pfx len i
    · exact hshape x hx'

lemma gStar_digits (len : Nat) (hlen : 0 < len) (k : Nat) :
    (List.range len).map (Fin.val ∘ fun n => gStar len (k * len + n)) =
      digitsOfN len k := by
  apply List.ext_getElem
  · rw [List.length_map, List.length_range, digitsOfN_length]
  · intro m hm1 hm2
    rw [List.getElem_map, List.getElem_range]
    have hmlen : m < len := by
      rw [List.length_map, List.length_range] at hm1
      exact hm1
    have hdiv : (k * len + m) / len = k := by
      rw [Nat.mul_comm k len, Nat.mul_add_div hlen, Nat.div_eq_of_lt hmlen,
        Nat.add_zero]
    have hmod : (k * len + m) % len = m := by
      rw [Nat.mul_comm k len, Nat.mul_add_mod, Nat.mod_eq_of_lt hmlen]
    have hm' : m < (digitsOfN len k).length := by
      rw [digitsOfN_length]; exact hmlen
    show (digitsOfN len ((k * len + m) / len)).getD ((k * len + m) % len) 0 % 10 =
      (digitsOfN len k)[m]
    rw [hdiv, hmod, List.getD_eq_getElem _ _ hm']
    exact Nat.mod_eq_of_lt (digitsOfN_lt len k _ (List.getElem_mem hm'))

lemma serialAt_gStar_inj (pfx : String) (len : Nat) (hlen : 0 < len)
    (i j : Nat) (hi : i < 10 ^ len) (hj : j < 10 ^ len)
    (heq : serialAt (gStar len) pfx len i = serialAt (gStar len) pfx len j) :
    i = j := by
  rw [serialAt_eq, serialAt_eq] at heq
  have hdata := congrArg String.data heq
  rw [String.data_append, String.data_append, data_mk, data_mk] at hdata
  have h2 := List.append_cancel_left hdata
  have h3 := List.map_injective_iff.mpr digitAt_injective h2
  have h4 := congrArg (List.map Fin.val) h3
  rw [List.map_map, List.map_map, gStar_digits len hlen i,
    gStar_digits len hlen j] at h4
  have h5 := congrArg valNat h4
  rw [valNat_digitsOfN len i hi, valNat_digitsOfN len j hj] at h5
  exact h5

/-- If the next `fuel` draws are fresh and pairwise distinct and suffice to
reach `count`, the loop finishes. -/
lemma batch_ex (g : Nat → Fin 10) (pfx : String) (len count : Nat) :
    ∀ (fuel i : Nat) (s : Finset String),
      count ≤ s.card + fuel →
      (∀ j k, i ≤ j → j < i + fuel → i ≤ k → k < i + fuel →
        serialAt g pfx len j = serialAt g pfx len k → j = k) →
      (∀ j, i ≤ j → j < i + fuel → serialAt g pfx len j ∉ s) →
      ∃ r, generate_batch_serials g count pfx len fuel i s = some r := by
  intro fuel
  induction fuel with
  | zero =>
    intro i s hc _ _
    rw [generate_batch_serials, if_neg (by omega)]
    exact ⟨s, rfl⟩
  | succ fuel ih =>
    intro i s hc hinj hfresh
    rw [generate_batch_serials]
    by_cases h : s.card < count
    · rw [if_pos h]
      refine ih (i + 1) (insert (serialAt g pfx len i) s) ?_ ?_ ?_
      · rw [Finset.card_insert_of_not_mem (hfresh i (le_refl i) (by omega))]
        omega
      · intro j k hj hjf hk hkf
        exact hinj j k (by omega) (by omega) (by omega) (by omega)
      · intro j hj hjf hmem
        rcases Finset.mem_insert.mp hmem with heq | hmem'
        · have := hinj j i (by omega) (by omega) (le_refl i) (by omega) heq
          omega
        · exact hfresh j (by omega) (by omega) hmem'
    · rw [if_neg h]
      exact ⟨s, rfl⟩

/-- Whenever `count ≤ 10 ^ len`, some digit stream finishes the loop (within
`count` iterations). -/
lemma batch_terminates (pfx : String) (len count : Nat)
    (hcount : count ≤ 10 ^ len) :
    ∃ (g : Nat → Fin 10) (fuel : Nat) (r : Finset String),
      generate_batch_serials g count pfx len fuel 0 ∅ = some r := by
  rcases Nat.eq_zero_or_pos len with hlen | hlen
  · subst hlen
    have hc1 : count ≤ 1 := by simpa using hcount
    refine ⟨g0, count, ?_⟩
    refine batch_ex g0 pfx 0 count count 0 ∅ (by omega) ?_ ?_
    · intro j k hj hjf hk hkf _
      omega
    · intro j _ _ hmem
      exact absurd hmem (Finset.not_mem_empty _)
  · refine ⟨gStar len, count, ?_⟩
    refine batch_ex (gStar len) pfx len count count 0 ∅ (by omega) ?_ ?_
    · intro j k hj hjf hk hkf heq
      exact serialAt_gStar_inj pfx len hlen j k (by omega) (by omega) heq
    · intro j _ _ hmem
      exact absurd hmem (Finset.not_mem_empty _)

/-- C4 (amended): whenever the uniqueness loop of `generate_batch_serials`
returns, it returns exactly `count` pairwise-distinct serials, each a prefix
followed by `length` digits; with `count ≤ 10 ^ length` there is a digit
stream on which the loop terminates, while with `count > 10 ^ length` it
terminates on no stream; sure termination for every stream does not hold. -/
theorem C4_generate_batch_serials_spec (g : Nat → Fin 10) (pfx : String)
    (len count fuel : Nat) :
    (∀ r, generate_batch_serials g count pfx len fuel 0 ∅ = some r →
       r.card = count ∧ ∀ x ∈ r, SerialShape pfx len x) ∧
    (count ≤ 10 ^ len →
       ∃ (g' : Nat → Fin 10) (fuel' : Nat) (r : Finset String),
         generate_batch_serials g' count pfx len fuel' 0 ∅ = some r) ∧
    (10 ^ len < count →
       generate_batch_serials g count pfx len fuel 0 ∅ = none) := by
  refine ⟨?_, ?_, ?_⟩
  · intro r hr
    exact batch_sound g pfx len count fuel 0 ∅ r (by simp) (by simp) hr
  · exact batch_terminates pfx len count
  · intro hc
    exact batch_none_of_overcount g pfx len count hc fuel 0 ∅ (by simp)

lemma batch_const_stuck :
    ∀ (fuel i : Nat) (s : Finset String), s ⊆ {serialAt g0 "SN" 8 0} →
      generate_batch_serials g0 2 "SN" 8 fuel i s = none := by
  intro fuel
  induction fuel with
  | zero =>
    intro i s hsub
    have hcard : s.card ≤ 1 := le_trans (Finset.card_le_card hsub) (by simp)
    rw [generate_batch_serials, if_pos (by omega)]
  | succ fuel ih =>
    intro i s hsub
    have hcard : s.card ≤ 1 := le_trans (Finset.card_le_card hsub) (by simp)
    rw [generate_batch_serials, if_pos (by omega)]
    refine ih (i + 1) _ ?_
    intro x hx
    rcases Finset.mem_insert.mp hx with rfl | hx'
    · exact Finset.mem_singleton.mpr rfl
    · exact hsub hx'

/-- C4 counterexample: the loop is not a total function under the
precondition `count ≤ 10 ^ length`: at `count = 2`, `length = 8` (so
`2 ≤ 10 ^ 8`), the constant digit stream keeps redrawing the serial
`SN00000000`, and the loop terminates under no iteration bound. -/
theorem C4_generate_batch_serials_counterexample :
    (2 : Nat) ≤ 10 ^ 8 ∧
    ¬ ∃ (fuel : Nat) (r : Finset String),
        generate_batch_serials g0 2 "SN" 8 fuel 0 ∅ = some r := by
  refine ⟨by norm_num, ?_⟩
  rintro ⟨fuel, r, hr⟩
  rw [batch_const_stuck fuel 0 ∅ (by simp)] at hr
  exact absurd hr (by simp)

/-- Witness for C4 at `count = 2` with `length = 1` (soundness at a concrete
terminating run, existence) and `length = 0` (impossibility, `10 ^ 0 < 2`). -/
theorem C4_generate_batch_serials_spec_witness :
    ((insert "SN1" (insert "SN0" (∅ : Finset String))).card = 2 ∧
       ∀ x ∈ insert "SN1" (insert "SN0" (∅ : Finset String)), SerialShape "SN" 1 x) ∧
    (∃ (g' : Nat → Fin 10) (fuel' : Nat) (r : Finset String),
        generate_batch_serials g' 2 "SN" 1 fuel' 0 ∅ = some r) ∧
    generate_batch_serials g0 2 "SN" 0 7 0 ∅ = none :=
  ⟨(C4_generate_batch_serials_spec gId "SN" 1 2 2).1
      (insert "SN1" (insert "SN0" (∅ : Finset String))) (by rfl),
   (C4_generate_batch_serials_spec g0 "SN" 1 2 0).2.1 (by norm_num),
   (C4_generate_batch_serials_spec g0 "SN" 0 2 7).2.2 (by norm_num)⟩
